import Mathlib

/-!
Verification of the event-browser / pipeline-state-viewer logic of the
qrenderdoc UI layer, shallowly embedded from
`qrenderdoc/Windows/EventBrowser.cpp` and
`qrenderdoc/Windows/PipelineState/D3D12PipelineStateViewer.cpp`.

Machine integers (`uint32_t`) are modelled as `Nat`; where 32-bit
wrap-around matters (the `~0U` sentinel in `EventBrowser::Find`) the
explicit constant 4294967295 = 2^32 - 1 is used together with a
well-formedness hypothesis that stored event IDs fit in 32 bits.
The floating-point `duration` field of `EventItemTag` is omitted: it is
only written by the timing path, which no verified operation reads.
-/

namespace RenderDoc

/-- Embeds `struct EventItemTag` (EventBrowser.cpp, lines 36-47): the
per-row tag storing the first and last event ID covered by a row plus
the three icon flags. -/
structure EventItemTag where
  EID : Nat := 0
  lastEID : Nat := 0
  current : Bool := false
  find : Bool := false
  bookmark : Bool := false
deriving DecidableEq

/-- Embeds `RDTreeWidgetItem` as used by EventBrowser: a tree row with
its Name column text, its EID column text, its `EventItemTag` tag, and
its list of child rows (in widget order). -/
inductive Item : Type where
  | node (name : String) (eidText : String) (tag : EventItemTag) (children : List Item)

/-- The Name column text of a row (`n->text(COL_NAME)`). -/
def Item.name : Item → String
  | .node nm _ _ _ => nm

/-- The EID column text of a row (`n->text(COL_EID)`). -/
def Item.eidText : Item → String
  | .node _ e _ _ => e

/-- The tag of a row (`n->tag().value<EventItemTag>()`). -/
def Item.tag : Item → EventItemTag
  | .node _ _ t _ => t

/-- The children of a row, index 0 first (`n->child(i)`). -/
def Item.children : Item → List Item
  | .node _ _ _ cs => cs

/-- Termination bookkeeping: a list's tail is smaller than the list. -/
def sizeOfTailLt (nm et : String) (tg : EventItemTag) (cs rest : List Item) :
    sizeOf rest < 1 + (1 + sizeOf nm + sizeOf et + sizeOf tg + sizeOf cs) + sizeOf rest :=
  Nat.lt_add_of_pos_left (Nat.lt_of_lt_of_le Nat.zero_lt_one (Nat.le_add_right 1 _))

/-- Termination bookkeeping: a row's child list is smaller than a list
headed by that row. -/
def sizeOfChildrenLt (nm et : String) (tg : EventItemTag) (cs rest : List Item) :
    sizeOf cs < 1 + (1 + sizeOf nm + sizeOf et + sizeOf tg + sizeOf cs) + sizeOf rest :=
  Nat.lt_of_lt_of_le
    (Nat.lt_of_le_of_lt (Nat.le_add_left _ _) (Nat.lt_add_of_pos_left Nat.zero_lt_one))
    (Nat.le_add_right _ _)

/-- All rows of a forest in document order (preorder): each row before
its descendants, siblings in widget order. This is the order in which
the forward loops of EventBrowser visit rows. -/
def preorderItems : List Item → List Item
  | [] => []
  | .node nm et tg cs :: rest =>
      .node nm et tg cs :: (preorderItems cs ++ preorderItems rest)
decreasing_by
  all_goals simp_wf
  all_goals first
    | exact sizeOfChildrenLt _ _ _ _ _
    | exact sizeOfTailLt _ _ _ _ _
    | omega

/-- Embeds `D3D12PipelineStateViewer::showNode(bool usedSlot, bool
filledSlot)` (D3D12PipelineStateViewer.cpp, lines 806-824), with the two
checkbox states passed explicitly. -/
def showNode (usedSlot filledSlot showDisabled showEmpty : Bool) : Bool :=
  -- show if referenced by the shader - regardless of empty or not
  if usedSlot then true
  -- bound, but not referenced, and we have "show disabled"
  else if showDisabled && !usedSlot && filledSlot then true
  -- empty, and we have "show empty"
  else if showEmpty && !filledSlot then true
  else false

/-- The bookmark bookkeeping of EventBrowser: `m_Bookmarks` (the event
IDs), `m_BookmarkButtons` (each button modelled by the event ID stored
in its text and its "eid" property), and the visibility of
`ui->bookmarkStrip`. -/
structure BookmarkState where
  bookmarks : List Nat
  buttons : List Nat
  stripVisible : Bool

/-- Embeds `QList::indexOf`: the first index holding `x`, or -1. -/
def qIndexOf (l : List Nat) (x : Nat) : Int :=
  if x ∈ l then Int.ofNat (l.indexOf x) else -1

/-- Embeds `QList::removeAt` / `takeAt` (element at the index dropped). -/
def qRemoveAt (l : List Nat) (i : Nat) : List Nat :=
  l.eraseIdx i

/-- Embeds `EventBrowser::clearBookmarks` (EventBrowser.cpp, lines
710-719): both lists emptied, strip hidden. -/
def clearBookmarks : BookmarkState :=
  { bookmarks := [], buttons := [], stripVisible := false }

/-- Embeds `EventBrowser::toggleBookmark(uint32_t EID)` (EventBrowser.cpp,
lines 721-774) restricted to the bookmark bookkeeping it mutates: if the
EID is present the entry and its button are removed at its index,
otherwise a button is created and both are appended; finally the strip
is shown iff the button list is non-empty. (The tag/icon updates on the
tree row are part of the tree state, not of this structure.) -/
def toggleBookmark (s : BookmarkState) (EID : Nat) : BookmarkState :=
  let index := qIndexOf s.bookmarks EID
  if 0 ≤ index then
    let buttons := qRemoveAt s.buttons index.toNat
    let bookmarks := qRemoveAt s.bookmarks index.toNat
    { bookmarks := bookmarks, buttons := buttons,
      stripVisible := !buttons.isEmpty }
  else
    let buttons := s.buttons ++ [EID]
    let bookmarks := s.bookmarks ++ [EID]
    { bookmarks := bookmarks, buttons := buttons,
      stripVisible := !buttons.isEmpty }

/-- The representation invariant tying the bookmark event-ID list, the
button list and the strip visibility together: the button at each index
carries the event ID at that index (the two lists agree), and the strip
is visible exactly when bookmarks exist. -/
def BookmarkInv (s : BookmarkState) : Prop :=
  s.buttons = s.bookmarks ∧ s.stripVisible = !s.bookmarks.isEmpty

/-- Helper for `containsCI`: does the first character list occur at the
start of the second? -/
def charsStartWith : List Char → List Char → Bool
  | [], _ => true
  | _ :: _, [] => false
  | a :: as, b :: bs => a == b && charsStartWith as bs

/-- Helper for `containsCI`: does the first character list occur
contiguously anywhere in the second? -/
def charsContain (needle : List Char) : List Char → Bool
  | [] => charsStartWith needle []
  | b :: bs => charsStartWith needle (b :: bs) || charsContain needle bs

/-- Embeds `QString::contains(filter, Qt::CaseInsensitive)`: substring
containment after lowercasing both sides. -/
def containsCI (haystack filter : String) : Bool :=
  charsContain (filter.toList.map Char.toLower) (haystack.toList.map Char.toLower)

mutual

/-- Structural equality test on rows (Qt compares row pointers; in the
value model the subtree value plays that role). -/
def Item.beq : Item → Item → Bool
  | .node n1 e1 t1 c1, .node n2 e2 t2 c2 =>
    n1 == n2 && e1 == e2 && decide (t1 = t2) && Item.beqList c1 c2

/-- Pointwise `Item.beq` on child lists. -/
def Item.beqList : List Item → List Item → Bool
  | [], [] => true
  | _ :: _, [] => false
  | [], _ :: _ => false
  | a :: as, b :: bs => Item.beq a b && Item.beqList as bs

end

mutual

/-- The chain of rows from a root down to a target row, if the target
occurs in the root's subtree: this models the `parent()` chain walked by
`EventBrowser::ExpandNode`. -/
def pathTo (target : Item) : Item → Option (List Item)
  | .node nm et tg cs =>
    if Item.beq (.node nm et tg cs) target then some [Item.node nm et tg cs]
    else
      match pathToChildren target cs with
      | some p => some (Item.node nm et tg cs :: p)
      | none => none

/-- First subtree of the list containing the target, as a path. -/
def pathToChildren (target : Item) : List Item → Option (List Item)
  | [] => none
  | c :: rest =>
    match pathTo target c with
    | some p => some p
    | none => pathToChildren target rest

end

/-- The EventBrowser state acted on by `SelectEvent`: whether a capture
log is loaded, the single top-level row of `ui->events` (the frame row,
`ui->events->topLevelItem(0)`), the current item, the selected item, the
set of expanded rows, and the row last scrolled to. -/
structure BrowserState where
  logLoaded : Bool
  root : Item
  current : Option Item
  selected : Option Item
  expanded : List Item
  scrolledTo : Option Item

/-- Embeds `EventBrowser::FindEventNode(found, parent, eventID)`
(EventBrowser.cpp, lines 821-847). The C++ iterates the parent's
children from the last index down to index 0, threading `found` by
reference and returning whether an exact leaf match was hit; here the
child list is the second argument and the head of the list is processed
last (it has the lowest index). -/
def FindEventNode : Option Item → List Item → Nat → Option Item × Bool
  | found, [], _ => (found, false)
  | found, .node nm et tg cs :: rest, eventID =>
    match FindEventNode found rest eventID with
    | (found1, true) => (found1, true)
    | (found1, false) =>
      let nEID := tg.lastEID
      let fEID := match found1 with
        | some f => f.tag.lastEID
        | none => 0
      let found2 := if eventID ≤ nEID && (found1.isNone || decide (nEID ≤ fEID))
        then some (Item.node nm et tg cs) else found1
      if nEID == eventID && cs.isEmpty then (found2, true)
      else if !cs.isEmpty then FindEventNode found2 cs eventID
      else (found2, false)
termination_by found cs e => sizeOf cs
decreasing_by
  all_goals simp_wf
  all_goals first
    | exact sizeOfChildrenLt _ _ _ _ _
    | exact sizeOfTailLt _ _ _ _ _
    | omega

/-- The found-update step of `FindEventNode` in isolation: a child with
lastEID at or above the target replaces the running candidate when it is
absent or not closer. -/
def foundUpdate (found1 : Option Item) (n : Item) (e : Nat) : Option Item :=
  let fEID := match found1 with
    | some f => f.tag.lastEID
    | none => 0
  if e ≤ n.tag.lastEID && (found1.isNone || decide (n.tag.lastEID ≤ fEID)) then some n
  else found1

/-- Embeds `EventBrowser::ExpandNode` (EventBrowser.cpp, lines 849-860):
the node and every ancestor up to the top-level row are expanded, then
the view scrolls to the node. -/
def ExpandNode (s : BrowserState) (n : Item) : BrowserState :=
  { s with expanded := ((pathTo n s.root).getD []) ++ s.expanded,
           scrolledTo := some n }

/-- Embeds `EventBrowser::SelectEvent(uint32_t eventID)`
(EventBrowser.cpp, lines 862-879): nothing happens unless a log is
loaded; the tree under the top-level row is searched with
`FindEventNode` starting from a null `found`; on success the row becomes
current and selected and is expanded, on failure the state is untouched.
The Bool component is the C++ return value. -/
def SelectEvent (s : BrowserState) (eventID : Nat) : Bool × BrowserState :=
  if !s.logLoaded then (false, s)
  else
    match (FindEventNode none s.root.children eventID).1 with
    | some found =>
        (true, ExpandNode { s with current := some found, selected := some found } found)
    | none => (false, s)

mutual

/-- Embeds the per-node body of `EventBrowser::FindEvent(parent, filter,
after, forward)` (EventBrowser.cpp, lines 960-991) for one child `n`:
return the row's lastEID if it passes the after-filter and the
case-insensitive name match; otherwise recurse into its children, a
recursive result being accepted only when strictly positive; -1 tells
the enclosing loop to move on. -/
def FindEventItem (filter : String) (after : Nat) (forward : Bool) : Item → Int
  | .node nm _ tg cs =>
    let eid := tg.lastEID
    let matchesAfter := if forward then decide (after < eid) else decide (eid < after)
    if matchesAfter && containsCI nm filter then Int.ofNat eid
    else if !cs.isEmpty then
      let found := FindEventLoop filter after forward cs
      if 0 < found then found else -1
    else -1

/-- Embeds the loop of `EventBrowser::FindEvent(parent, ...)`: children
are visited from index 0 upward when `forward`, from the last index
downward otherwise, stopping at the first processed child that yields a
result other than -1. -/
def FindEventLoop (filter : String) (after : Nat) (forward : Bool) : List Item → Int
  | [] => -1
  | n :: rest =>
    if forward then
      let r := FindEventItem filter after forward n
      if r == -1 then FindEventLoop filter after forward rest else r
    else
      let r := FindEventLoop filter after forward rest
      if r == -1 then FindEventItem filter after forward n else r
end

/-- Embeds `DrawcallDescription` as consumed by
`EventBrowser::AddDrawcalls`: the name, the event ID, whether the flags
contain `DrawFlags::SetMarker`, and the child draws. (The remaining
fields — colours, counters, links — feed only the styling code and the
export path.) -/
inductive DrawcallDescription : Type where
  | mk (name : String) (eventID : Nat) (setMarker : Bool)
       (children : List DrawcallDescription)

/-- The name of a draw. -/
def DrawcallDescription.name : DrawcallDescription → String
  | .mk nm _ _ _ => nm

/-- The event ID of a draw. -/
def DrawcallDescription.eventID : DrawcallDescription → Nat
  | .mk _ e _ _ => e

/-- Whether the draw's flags contain `DrawFlags::SetMarker`. -/
def DrawcallDescription.setMarker : DrawcallDescription → Bool
  | .mk _ _ s _ => s

/-- The child draws of a draw. -/
def DrawcallDescription.children : DrawcallDescription → List DrawcallDescription
  | .mk _ _ _ cs => cs

/-- The text placed in the EID column when a row covers a range of
events: "EID-lastEID". -/
def rangeText (a b : Nat) : String :=
  toString a ++ "-" ++ toString b

/-- Termination bookkeeping: a draw's child list is smaller than a draw
list headed by that draw. -/
def sizeOfDrawChildrenLt (nm : String) (eid : Nat) (cs rest : List DrawcallDescription) :
    sizeOf cs < 1 + (1 + sizeOf nm + eid + 1 + sizeOf cs) + sizeOf rest :=
  Nat.lt_of_lt_of_le
    (Nat.lt_of_le_of_lt (Nat.le_add_left _ _) (Nat.lt_add_of_pos_left Nat.zero_lt_one))
    (Nat.le_add_right _ _)

/-- Termination bookkeeping: a draw list's tail is smaller than the list. -/
def sizeOfDrawTailLt (nm : String) (eid : Nat) (cs rest : List DrawcallDescription) :
    sizeOf rest < 1 + (1 + sizeOf nm + eid + 1 + sizeOf cs) + sizeOf rest :=
  Nat.lt_add_of_pos_left (Nat.lt_of_lt_of_le Nat.zero_lt_one (Nat.le_add_right 1 _))

/-- The fallback lastEID of a childless draw (EventBrowser.cpp, lines
215-221): its own event ID, or the next sibling's event ID for a
`SetMarker` draw that has a next sibling. -/
def sibLastEID (eid : Nat) (sm : Bool) (rest : List DrawcallDescription) : Nat :=
  if sm then
    match rest with
    | [] => eid
    | next :: _ => next.eventID
  else eid

/-- Embeds `EventBrowser::AddDrawcalls(parent, draws)` (EventBrowser.cpp,
lines 198-249) as a pure function: the rows appended to the parent (in
order) together with the returned `lastEID`. Per draw: a row is created
showing the name and the event ID; the children are added recursively
and their returned lastEID, when above the draw's own event ID, turns
the EID column into a range; a zero recursive lastEID (childless draw)
falls back to the draw's own event ID, or to the next sibling's event ID
for a `SetMarker` draw that has a next sibling; the tag stores the event
ID and the computed lastEID. The colour styling (lines 225-243) touches
no verified field and is omitted. -/
def AddDrawcalls : List DrawcallDescription → List Item × Nat
  | [] => ([], 0)
  | .mk nm eid sm cs :: rest =>
    let rec1 := AddDrawcalls cs
    let recEID := rec1.2
    let eidText := if eid < recEID then rangeText eid recEID else toString eid
    let lastEID := if recEID = 0 then sibLastEID eid sm rest else recEID
    let row : Item := .node nm eidText { EID := eid, lastEID := lastEID } rec1.1
    let rec2 := AddDrawcalls rest
    (row :: rec2.1, if rest.isEmpty then lastEID else rec2.2)
decreasing_by
  all_goals simp_wf
  all_goals first
    | exact sizeOfDrawChildrenLt _ _ _ _
    | exact sizeOfDrawTailLt _ _ _ _
    | omega

/-- The bare name tree of rows or draws, used to state that
`AddDrawcalls` mirrors the draw list's shape. -/
inductive NameTree : Type where
  | node (name : String) (children : List NameTree)

/-- The name trees of a forest of rows. -/
def itemShapes : List Item → List NameTree
  | [] => []
  | .node nm _ _ cs :: rest => .node nm (itemShapes cs) :: itemShapes rest
decreasing_by
  all_goals simp_wf
  all_goals first
    | exact sizeOfChildrenLt _ _ _ _ _
    | exact sizeOfTailLt _ _ _ _ _
    | omega

/-- The name trees of a list of draws. -/
def drawShapes : List DrawcallDescription → List NameTree
  | [] => []
  | .mk nm _ _ cs :: rest => .node nm (drawShapes cs) :: drawShapes rest
decreasing_by
  all_goals simp_wf
  all_goals first
    | exact sizeOfDrawChildrenLt _ _ _ _
    | exact sizeOfDrawTailLt _ _ _ _
    | omega

/-- Bridge: removing the element at the first index of `x` is `List.erase`. -/
theorem eraseIdx_indexOf (l : List Nat) (x : Nat) :
    l.eraseIdx (l.indexOf x) = l.erase x := by
  induction l with
  | nil => rfl
  | cons a as ih =>
    by_cases hax : a = x
    · simp [List.indexOf_cons, hax, List.erase_cons, List.eraseIdx]
    · simp [List.indexOf_cons, hax, List.erase_cons, List.eraseIdx, ih, beq_false_of_ne,
        Ne.symm hax]

/-- Unfolding of `toggleBookmark` when the event ID is bookmarked. -/
theorem toggleBookmark_of_mem (s : BookmarkState) (EID : Nat) (h : EID ∈ s.bookmarks) :
    toggleBookmark s EID =
      { bookmarks := s.bookmarks.erase EID,
        buttons := s.buttons.eraseIdx (s.bookmarks.indexOf EID),
        stripVisible := !(s.buttons.eraseIdx (s.bookmarks.indexOf EID)).isEmpty } := by
  simp [toggleBookmark, qIndexOf, qRemoveAt, h, eraseIdx_indexOf]

/-- Unfolding of `toggleBookmark` when the event ID is not bookmarked. -/
theorem toggleBookmark_of_not_mem (s : BookmarkState) (EID : Nat) (h : EID ∉ s.bookmarks) :
    toggleBookmark s EID =
      { bookmarks := s.bookmarks ++ [EID],
        buttons := s.buttons ++ [EID],
        stripVisible := !(s.buttons ++ [EID]).isEmpty } := by
  simp [toggleBookmark, qIndexOf, h]

/-- C6: `toggleBookmark(EID)` removes EID from the bookmark list when it is
present and appends it when it is absent, so applying it twice restores the
original bookmark membership. The hypothesis records that bookmark lists
reachable in the program are duplicate-free (`clearBookmarks` produces the
empty list and `toggleBookmark` only appends absent IDs). -/
theorem toggleBookmark_C6 (s : BookmarkState) (EID : Nat) (hnd : s.bookmarks.Nodup) :
    (EID ∈ s.bookmarks →
      (toggleBookmark s EID).bookmarks = s.bookmarks.erase EID ∧
      EID ∉ (toggleBookmark s EID).bookmarks) ∧
    (EID ∉ s.bookmarks →
      (toggleBookmark s EID).bookmarks = s.bookmarks ++ [EID]) ∧
    (∀ x, x ∈ (toggleBookmark (toggleBookmark s EID) EID).bookmarks ↔ x ∈ s.bookmarks) := by
  refine ⟨fun hm => ?_, fun hm => ?_, fun x => ?_⟩
  · rw [toggleBookmark_of_mem s EID hm]
    exact ⟨rfl, hnd.not_mem_erase⟩
  · rw [toggleBookmark_of_not_mem s EID hm]
  · by_cases hm : EID ∈ s.bookmarks
    · rw [toggleBookmark_of_mem s EID hm]
      have h2 : EID ∉ (s.bookmarks.erase EID) := hnd.not_mem_erase
      rw [toggleBookmark_of_not_mem _ EID h2]
      show x ∈ s.bookmarks.erase EID ++ [EID] ↔ x ∈ s.bookmarks
      by_cases hx : x = EID
      · subst hx; simp [hm]
      · simp [List.mem_append, hx, List.mem_erase_of_ne hx]
    · rw [toggleBookmark_of_not_mem s EID hm]
      have h2 : EID ∈ (s.bookmarks ++ [EID]) := by simp
      rw [toggleBookmark_of_mem _ EID h2]
      show x ∈ (s.bookmarks ++ [EID]).erase EID ↔ x ∈ s.bookmarks
      rw [List.erase_append_right _ hm]
      simp

/-- Witness for C6: toggling event 3 twice on the bookmark list [3] leaves
membership of 5 unchanged. -/
theorem toggleBookmark_C6_witness :
    (5 ∈ (toggleBookmark (toggleBookmark ⟨[3], [3], true⟩ 3) 3).bookmarks ↔
      5 ∈ ([3] : List Nat)) :=
  (toggleBookmark_C6 ⟨[3], [3], true⟩ 3 (by decide)).2.2 5

/-- C10: `clearBookmarks` establishes, and `toggleBookmark` preserves, the
invariant that the button list mirrors the bookmark event-ID list index by
index and that the bookmark strip is visible exactly when the list is
non-empty. -/
theorem bookmark_C10 (s : BookmarkState) (EID : Nat) (h : BookmarkInv s) :
    BookmarkInv clearBookmarks ∧ BookmarkInv (toggleBookmark s EID) := by
  refine ⟨⟨rfl, rfl⟩, ?_⟩
  obtain ⟨hb, _⟩ := h
  by_cases hm : EID ∈ s.bookmarks
  · rw [toggleBookmark_of_mem s EID hm]
    constructor
    · show s.buttons.eraseIdx _ = _
      rw [hb, eraseIdx_indexOf]
    · show (!(s.buttons.eraseIdx (s.bookmarks.indexOf EID)).isEmpty) = _
      rw [hb, eraseIdx_indexOf]
  · rw [toggleBookmark_of_not_mem s EID hm]
    exact ⟨by rw [hb], by rw [hb]⟩

/-- Witness for C10 at the empty bookmark state and event 7. -/
theorem bookmark_C10_witness :
    BookmarkInv clearBookmarks ∧ BookmarkInv (toggleBookmark ⟨[], [], false⟩ 7) :=
  bookmark_C10 ⟨[], [], false⟩ 7 ⟨rfl, rfl⟩

/-- C7: a pipeline-state resource slot row passes `showNode` exactly when
the slot is referenced by the shader, or it is bound but unreferenced and
"show disabled" is checked, or it is unbound and "show empty" is checked. -/
theorem showNode_C7 (usedSlot filledSlot showDisabled showEmpty : Bool) :
    showNode usedSlot filledSlot showDisabled showEmpty =
      (usedSlot || (showDisabled && !usedSlot && filledSlot) ||
        (showEmpty && !filledSlot)) := by
  cases usedSlot <;> cases filledSlot <;> cases showDisabled <;> cases showEmpty <;> rfl

/-- Unfolding of `preorderItems` on a cons cell. -/
theorem preorderItems_cons (n : Item) (rest : List Item) :
    preorderItems (n :: rest) = n :: (preorderItems n.children ++ preorderItems rest) := by
  cases n with
  | node nm et tg cs => simp [preorderItems, Item.children]

/-- Any candidate produced by `foundUpdate` has lastEID at or above the
target, provided the incoming candidate does. -/
theorem foundUpdate_pre (found1 : Option Item) (n : Item) (e : Nat)
    (hpre : ∀ f, found1 = some f → e ≤ f.tag.lastEID) :
    ∀ f, foundUpdate found1 n e = some f → e ≤ f.tag.lastEID := by
  intro f hf
  simp only [foundUpdate] at hf
  split at hf
  · rename_i hcond
    simp only [Bool.and_eq_true, decide_eq_true_eq] at hcond
    injection hf with h
    exact h ▸ hcond.1
  · exact hpre f hf

/-- `foundUpdate` never discards a candidate and never worsens its
lastEID. -/
theorem foundUpdate_mono (found1 : Option Item) (n : Item) (e : Nat) :
    ∀ f, found1 = some f →
      ∃ g, foundUpdate found1 n e = some g ∧ g.tag.lastEID ≤ f.tag.lastEID := by
  intro f hf
  subst hf
  simp only [foundUpdate, Option.isNone_some, Bool.false_or]
  split
  · rename_i hcond
    simp only [Bool.and_eq_true, decide_eq_true_eq] at hcond
    exact ⟨n, rfl, hcond.2⟩
  · exact ⟨f, rfl, le_refl _⟩

/-- After `foundUpdate` with an eligible row, some candidate at or below
that row's lastEID is present. -/
theorem foundUpdate_cand (found1 : Option Item) (n : Item) (e : Nat)
    (h : e ≤ n.tag.lastEID) :
    ∃ g, foundUpdate found1 n e = some g ∧ g.tag.lastEID ≤ n.tag.lastEID := by
  cases found1 with
  | none =>
    refine ⟨n, ?_, le_refl _⟩
    simp [foundUpdate, h]
  | some f =>
    by_cases hle : n.tag.lastEID ≤ f.tag.lastEID
    · refine ⟨n, ?_, le_refl _⟩
      simp [foundUpdate, h, hle]
    · refine ⟨f, ?_, le_of_lt (not_le.mp hle)⟩
      simp [foundUpdate, hle]

/-- A candidate produced by `foundUpdate` is the incoming one or the row
just examined. -/
theorem foundUpdate_from (found1 : Option Item) (n : Item) (e : Nat) :
    ∀ g, foundUpdate found1 n e = some g → found1 = some g ∨ g = n := by
  intro g hg
  simp only [foundUpdate] at hg
  split at hg
  · right
    injection hg with h
    exact h.symm
  · exact Or.inl hg

/-- Full characterisation of `FindEventNode`: (A) any produced candidate
has lastEID at or above the target and is the incoming candidate or a row
of the forest; (B) an incoming candidate is never lost and its lastEID
never worsened; (C) whenever some row of the forest has lastEID at or
above the target, a candidate at or below that row's lastEID is produced;
(D) on an exact-match return the candidate's lastEID equals the target. -/
theorem FindEventNode_spec : ∀ (cs : List Item) (found : Option Item) (e : Nat),
    (∀ f, found = some f → e ≤ f.tag.lastEID) →
    (∀ g, (FindEventNode found cs e).1 = some g →
        e ≤ g.tag.lastEID ∧ (found = some g ∨ g ∈ preorderItems cs)) ∧
    (∀ f, found = some f → ∃ g, (FindEventNode found cs e).1 = some g ∧
        g.tag.lastEID ≤ f.tag.lastEID) ∧
    (∀ n, n ∈ preorderItems cs → e ≤ n.tag.lastEID →
        ∃ g, (FindEventNode found cs e).1 = some g ∧
          g.tag.lastEID ≤ n.tag.lastEID) ∧
    ((FindEventNode found cs e).2 = true →
        ∃ g, (FindEventNode found cs e).1 = some g ∧ g.tag.lastEID = e)
  | [], found, e => by
    intro hpre
    have hnil : FindEventNode found [] e = (found, false) := by rw [FindEventNode]
    rw [hnil]
    refine ⟨?_, ?_, ?_, ?_⟩
    · intro g hg
      exact ⟨hpre g hg, Or.inl hg⟩
    · intro f hf
      exact ⟨f, hf, le_refl _⟩
    · intro n hn
      simp [preorderItems] at hn
    · intro hex
      simp at hex
  | .node nm et tg cs0 :: rest, found, e => by
    intro hpre
    obtain ⟨Arest, Brest, Crest, Drest⟩ := FindEventNode_spec rest found e hpre
    rcases hres : FindEventNode found rest e with ⟨found1, exact1⟩
    rw [hres] at Arest Brest Crest Drest
    simp only [] at Arest Brest Crest Drest
    cases exact1 with
    | true =>
      have hunf : FindEventNode found (Item.node nm et tg cs0 :: rest) e = (found1, true) := by
        rw [FindEventNode, hres]
      rw [hunf]
      simp only [] at Drest ⊢
      obtain ⟨gex, hgex, hgexe⟩ := Drest trivial
      refine ⟨?_, ?_, ?_, ?_⟩
      · intro g hg
        obtain ⟨h1, h2⟩ := Arest g hg
        refine ⟨h1, h2.imp id ?_⟩
        intro hmem
        rw [preorderItems_cons]
        simp [Item.children]
        tauto
      · intro f hf
        exact Brest f hf
      · intro n hn hne
        exact ⟨gex, hgex, hgexe ▸ hne⟩
      · intro _
        exact ⟨gex, hgex, hgexe⟩
    | false =>
      have hpre1 : ∀ f, found1 = some f → e ≤ f.tag.lastEID := fun f hf => (Arest f hf).1
      have hpre2 : ∀ f, foundUpdate found1 (Item.node nm et tg cs0) e = some f →
          e ≤ f.tag.lastEID :=
        foundUpdate_pre found1 (Item.node nm et tg cs0) e hpre1
      have hmemc : ∀ x : Item, x ∈ preorderItems (Item.node nm et tg cs0 :: rest) ↔
          (x = Item.node nm et tg cs0 ∨ x ∈ preorderItems cs0 ∨ x ∈ preorderItems rest) := by
        intro x
        rw [preorderItems_cons]
        simp [Item.children]
      have hunf : FindEventNode found (Item.node nm et tg cs0 :: rest) e =
          (if tg.lastEID == e && cs0.isEmpty then
            (foundUpdate found1 (Item.node nm et tg cs0) e, true)
          else if !cs0.isEmpty then
            FindEventNode (foundUpdate found1 (Item.node nm et tg cs0) e) cs0 e
          else (foundUpdate found1 (Item.node nm et tg cs0) e, false)) := by
        rw [FindEventNode, hres]
        rfl
      by_cases hb1 : (tg.lastEID == e && cs0.isEmpty) = true
      · rw [hunf, if_pos hb1]
        simp only [Bool.and_eq_true, beq_iff_eq, List.isEmpty_iff] at hb1
        obtain ⟨heq, hemp⟩ := hb1
        obtain ⟨g2, hg2, hg2le⟩ :=
          foundUpdate_cand found1 (Item.node nm et tg cs0) e (by
            show e ≤ (Item.node nm et tg cs0).tag.lastEID
            simp [Item.tag, heq])
        have hg2e : g2.tag.lastEID = e := by
          have h1 := hpre2 g2 hg2
          have h2 : g2.tag.lastEID ≤ e := by
            simpa [Item.tag, heq] using hg2le
          exact Nat.le_antisymm h2 h1
        refine ⟨?_, ?_, ?_, ?_⟩
        · intro g hg
          simp only [] at hg
          refine ⟨hpre2 g hg, ?_⟩
          rcases foundUpdate_from found1 (Item.node nm et tg cs0) e g hg with h3 | h3
          · rcases (Arest g h3).2 with h4 | h4
            · exact Or.inl h4
            · exact Or.inr ((hmemc g).mpr (Or.inr (Or.inr h4)))
          · exact Or.inr ((hmemc g).mpr (Or.inl h3))
        · intro f hf
          obtain ⟨g1, hg1, hle1⟩ := Brest f hf
          obtain ⟨g2x, hg2x, hle2⟩ := foundUpdate_mono found1 (Item.node nm et tg cs0) e g1 hg1
          exact ⟨g2x, hg2x, le_trans hle2 hle1⟩
        · intro n hn hne
          exact ⟨g2, hg2, by rw [hg2e]; exact hne⟩
        · intro _
          exact ⟨g2, hg2, hg2e⟩
      · by_cases hb2 : (!cs0.isEmpty) = true
        · rw [hunf, if_neg hb1, if_pos hb2]
          obtain ⟨Acs, Bcs, Ccs, Dcs⟩ :=
            FindEventNode_spec cs0 (foundUpdate found1 (Item.node nm et tg cs0) e) e hpre2
          refine ⟨?_, ?_, ?_, ?_⟩
          · intro g hg
            obtain ⟨h1, h2⟩ := Acs g hg
            refine ⟨h1, ?_⟩
            rcases h2 with h2 | h2
            · rcases foundUpdate_from found1 (Item.node nm et tg cs0) e g h2 with h3 | h3
              · rcases (Arest g h3).2 with h4 | h4
                · exact Or.inl h4
                · exact Or.inr ((hmemc g).mpr (Or.inr (Or.inr h4)))
              · exact Or.inr ((hmemc g).mpr (Or.inl h3))
            · exact Or.inr ((hmemc g).mpr (Or.inr (Or.inl h2)))
          · intro f hf
            obtain ⟨g1, hg1, hle1⟩ := Brest f hf
            obtain ⟨g2x, hg2x, hle2⟩ := foundUpdate_mono found1 (Item.node nm et tg cs0) e g1 hg1
            obtain ⟨g3, hg3, hle3⟩ := Bcs g2x hg2x
            exact ⟨g3, hg3, le_trans hle3 (le_trans hle2 hle1)⟩
          · intro n hn hne
            rcases (hmemc n).mp hn with h | h | h
            · obtain ⟨g2x, hg2x, hle2⟩ :=
                foundUpdate_cand found1 (Item.node nm et tg cs0) e (h ▸ hne)
              obtain ⟨g3, hg3, hle3⟩ := Bcs g2x hg2x
              refine ⟨g3, hg3, ?_⟩
              subst h
              exact le_trans hle3 hle2
            · exact Ccs n h hne
            · obtain ⟨g1, hg1, hle1⟩ := Crest n h hne
              obtain ⟨g2x, hg2x, hle2⟩ := foundUpdate_mono found1 (Item.node nm et tg cs0) e g1 hg1
              obtain ⟨g3, hg3, hle3⟩ := Bcs g2x hg2x
              exact ⟨g3, hg3, le_trans hle3 (le_trans hle2 hle1)⟩
          · exact Dcs
        · rw [hunf, if_neg hb1, if_neg hb2]
          have hemp : cs0 = [] := by
            simpa using hb2
          refine ⟨?_, ?_, ?_, ?_⟩
          · intro g hg
            simp only [] at hg
            refine ⟨hpre2 g hg, ?_⟩
            rcases foundUpdate_from found1 (Item.node nm et tg cs0) e g hg with h3 | h3
            · rcases (Arest g h3).2 with h4 | h4
              · exact Or.inl h4
              · exact Or.inr ((hmemc g).mpr (Or.inr (Or.inr h4)))
            · exact Or.inr ((hmemc g).mpr (Or.inl h3))
          · intro f hf
            obtain ⟨g1, hg1, hle1⟩ := Brest f hf
            obtain ⟨g2x, hg2x, hle2⟩ := foundUpdate_mono found1 (Item.node nm et tg cs0) e g1 hg1
            exact ⟨g2x, hg2x, le_trans hle2 hle1⟩
          · intro n hn hne
            rcases (hmemc n).mp hn with h | h | h
            · obtain ⟨g2x, hg2x, hle2⟩ :=
                foundUpdate_cand found1 (Item.node nm et tg cs0) e (h ▸ hne)
              refine ⟨g2x, hg2x, ?_⟩
              subst h
              exact hle2
            · rw [hemp] at h
              simp [preorderItems] at h
            · obtain ⟨g1, hg1, hle1⟩ := Crest n h hne
              obtain ⟨g2x, hg2x, hle2⟩ := foundUpdate_mono found1 (Item.node nm et tg cs0) e g1 hg1
              exact ⟨g2x, hg2x, le_trans hle2 hle1⟩
          · intro hfalse
            simp at hfalse
termination_by cs found e => sizeOf cs
decreasing_by
  all_goals simp_wf
  all_goals first
    | exact sizeOfChildrenLt _ _ _ _ _
    | exact sizeOfTailLt _ _ _ _ _
    | omega

/-- C1: with a log loaded and (as the claim presupposes) event IDs
monotonically increasing over the tree in traversal order, SelectEvent
returns true and selects a row whose stored lastEID is the smallest
lastEID greater than or equal to the requested event ID whenever some row
has lastEID at or above it; when every row's lastEID is strictly below
it, SelectEvent returns false. (The proof does not even need the
monotonicity precondition; it is kept to mirror the claim.) -/
theorem SelectEvent_C1 (s : BrowserState) (e : Nat)
    (hload : s.logLoaded = true)
    (_hmono : List.Pairwise (· < ·)
      ((preorderItems s.root.children).map (fun n => n.tag.EID))) :
    ((∃ n ∈ preorderItems s.root.children, e ≤ n.tag.lastEID) →
      (SelectEvent s e).1 = true ∧
      ∃ f, (SelectEvent s e).2.selected = some f ∧ f ∈ preorderItems s.root.children ∧
        e ≤ f.tag.lastEID ∧
        ∀ m ∈ preorderItems s.root.children, e ≤ m.tag.lastEID →
          f.tag.lastEID ≤ m.tag.lastEID) ∧
    ((∀ n ∈ preorderItems s.root.children, n.tag.lastEID < e) →
      (SelectEvent s e).1 = false) := by
  obtain ⟨A, B, C, D⟩ := FindEventNode_spec s.root.children none e (fun f hf => nomatch hf)
  constructor
  · rintro ⟨n, hn, hne⟩
    obtain ⟨g, hg, hgle⟩ := C n hn hne
    have hSel : SelectEvent s e =
        (true, ExpandNode { s with current := some g, selected := some g } g) := by
      simp [SelectEvent, hload, hg]
    rw [hSel]
    refine ⟨rfl, g, ?_, ?_, ?_, ?_⟩
    · simp [ExpandNode]
    · rcases (A g hg).2 with h | h
      · cases h
      · exact h
    · exact (A g hg).1
    · intro m hm hme
      obtain ⟨g2, hg2, hle2⟩ := C m hm hme
      rw [hg] at hg2
      injection hg2 with h
      exact h ▸ hle2
  · intro hall
    cases hfind : (FindEventNode none s.root.children e).1 with
    | some g =>
      have hmem : g ∈ preorderItems s.root.children := by
        rcases (A g hfind).2 with h | h
        · cases h
        · exact h
      have h1 := (A g hfind).1
      have h2 := hall g hmem
      exact absurd h1 (Nat.not_le_of_lt h2)
    | none =>
      simp [SelectEvent, hload, hfind]

/-- Witness for C1: selecting event 1 in a loaded two-row tree succeeds. -/
theorem SelectEvent_C1_witness :
    (SelectEvent ⟨true,
      Item.node "g" "" ⟨0, 2, false, false, false⟩
        [Item.node "d" "" ⟨2, 2, false, false, false⟩ []],
      none, none, [], none⟩ 1).1 = true :=
  ((SelectEvent_C1 _ 1 rfl (by simp [preorderItems, Item.children])).1
    ⟨Item.node "d" "" ⟨2, 2, false, false, false⟩ [],
      by simp [preorderItems, Item.children], by simp [Item.tag]⟩).1

/-- C9: whenever SelectEvent returns false — because no log is loaded or
because no row has lastEID at or above the requested event ID — the whole
browser state (selection, expansion, scroll position and every row tag,
the tree being part of the state) is left unchanged. -/
theorem SelectEvent_C9 (s : BrowserState) (e : Nat)
    (h : (SelectEvent s e).1 = false) :
    (SelectEvent s e).2 = s ∧
    (s.logLoaded = false ∨ ∀ n ∈ preorderItems s.root.children, n.tag.lastEID < e) := by
  by_cases hl : s.logLoaded
  · obtain ⟨A, B, C, D⟩ := FindEventNode_spec s.root.children none e (fun f hf => nomatch hf)
    cases hfind : (FindEventNode none s.root.children e).1 with
    | some g =>
      have htrue : (SelectEvent s e).1 = true := by simp [SelectEvent, hl, hfind]
      rw [htrue] at h
      cases h
    | none =>
      have hSel : SelectEvent s e = (false, s) := by simp [SelectEvent, hl, hfind]
      refine ⟨by rw [hSel], Or.inr ?_⟩
      intro n hn
      by_contra hlt
      push_neg at hlt
      obtain ⟨g, hg, _⟩ := C n hn hlt
      rw [hfind] at hg
      cases hg
  · have hl2 : s.logLoaded = false := by simpa using hl
    have hSel : SelectEvent s e = (false, s) := by simp [SelectEvent, hl2]
    exact ⟨by rw [hSel], Or.inl hl2⟩

/-- Witness for C9: selecting with no log loaded returns the state
untouched. -/
theorem SelectEvent_C9_witness :
    (SelectEvent ⟨false, Item.node "F" "" ⟨0, 0, false, false, false⟩ [],
        none, none, [], none⟩ 3).2 =
      ⟨false, Item.node "F" "" ⟨0, 0, false, false, false⟩ [], none, none, [], none⟩ :=
  (SelectEvent_C9 ⟨false, Item.node "F" "" ⟨0, 0, false, false, false⟩ [],
      none, none, [], none⟩ 3 (by rfl)).1


theorem itemShapes_cons (nm et : String) (tg : EventItemTag) (cs rest : List Item) :
    itemShapes (Item.node nm et tg cs :: rest) =
      .node nm (itemShapes cs) :: itemShapes rest := by
  simp [itemShapes]

theorem drawShapes_cons (nm : String) (eid : Nat) (sm : Bool)
    (cs rest : List DrawcallDescription) :
    drawShapes (.mk nm eid sm cs :: rest) =
      .node nm (drawShapes cs) :: drawShapes rest := by
  simp [drawShapes]

theorem AddDrawcalls_cons (nm : String) (eid : Nat) (sm : Bool)
    (cs rest : List DrawcallDescription) :
    AddDrawcalls (DrawcallDescription.mk nm eid sm cs :: rest) =
      (Item.node nm
          (if eid < (AddDrawcalls cs).2 then rangeText eid (AddDrawcalls cs).2
           else toString eid)
          { EID := eid,
            lastEID :=
              if (AddDrawcalls cs).2 = 0 then sibLastEID eid sm rest
              else (AddDrawcalls cs).2 }
          (AddDrawcalls cs).1 :: (AddDrawcalls rest).1,
        if rest.isEmpty then
          (if (AddDrawcalls cs).2 = 0 then sibLastEID eid sm rest
           else (AddDrawcalls cs).2)
        else (AddDrawcalls rest).2) := by
  rw [AddDrawcalls.eq_def]

theorem AddDrawcalls_shape : ∀ draws : List DrawcallDescription,
    itemShapes (AddDrawcalls draws).1 = drawShapes draws ∧
    (AddDrawcalls draws).1.length = draws.length
  | [] => by
    constructor <;> simp [AddDrawcalls, itemShapes, drawShapes]
  | .mk nm eid sm cs :: rest => by
    have IHcs := AddDrawcalls_shape cs
    have IHrest := AddDrawcalls_shape rest
    rw [AddDrawcalls_cons]
    constructor
    · show itemShapes (Item.node _ _ _ _ :: _) = _
      rw [itemShapes_cons, drawShapes_cons, IHcs.1, IHrest.1]
    · show (Item.node _ _ _ _ :: _).length = _
      simp [IHrest.2]
termination_by draws => sizeOf draws
decreasing_by
  all_goals simp_wf
  all_goals first
    | exact sizeOfDrawChildrenLt _ _ _ _
    | exact sizeOfDrawTailLt _ _ _ _
    | omega

/-- C5: AddDrawcalls creates exactly one display row per draw call,
recursing into each draw's children, with sibling rows in input order:
the name trees of the produced rows coincide with the name trees of the
draw list (and in this pure embedding the draw list, taken by constant
reference in the C++, is untouched by construction). -/
theorem AddDrawcalls_C5 (draws : List DrawcallDescription) :
    itemShapes (AddDrawcalls draws).1 = drawShapes draws ∧
    (AddDrawcalls draws).1.length = draws.length :=
  AddDrawcalls_shape draws


end RenderDoc
